import Mathlib

/-!
Shallow embedding of the bucketed hash map in `src/src/hashmap/hashmap.c`
(functions `calc_bucket_size`, `get_key`/`get_value`/`get_overflow_ptr`,
`top_hash`, `bucket_index`, `alloc_bucket`, `alloc_buckets`,
`hashmap_create`, `hashmap_put`) together with `hashmap_get`, which is only
declared in the header and is therefore modelled from the specification.

Conventions of the embedding:
- C `NULL` pointers at the public boundary become `Option`.
- The caller-supplied `hash_fn`/`equals_fn` function pointers become Lean
  functions taking the key (and the key size, mirroring their C signatures);
  the `uint64_t` return value of the hash function is modelled by reducing
  the Lean `Nat` result `% 2 ^ 64` at the call site.
- A bucket's three inline arrays (8 tophash bytes, 8 keys, 8 values) become
  three lists that are kept at length 8 (the well-formedness predicate `WF`
  records this, mirroring the fixed C layout); the zero bytes written by
  `calloc` into unoccupied key/value slots become `default`.
- An overflow chain (head bucket embedded in the array plus the linked
  overflow buckets) becomes a `List (Bucket α β)`; following the chain's
  overflow pointers is traversing the list, and linking a fresh overflow
  bucket at the tail of the chain is appending to the list.
- `malloc`/`calloc` failure is modelled by boolean allocation oracles.
-/

/-- `#define BUCKET_SIZE 8` — key-value pairs per bucket. -/
def BUCKET_SIZE : Nat := 8

/-- `#define INITIAL_BUCKET_COUNT 8`. -/
def INITIAL_BUCKET_COUNT : Nat := 8

/-- `#define LOAD_FACTOR_NUMERATOR 13`. -/
def LOAD_FACTOR_NUMERATOR : Nat := 13

/-- `#define LOAD_FACTOR_DENOMINATOR 2`. -/
def LOAD_FACTOR_DENOMINATOR : Nat := 2

/-- `#define EMPTY 0` — the tophash value of an unoccupied slot. -/
def EMPTY : Nat := 0

/-- `sizeof(char *)` on the 64-bit target the Makefile compiles for. -/
def PTR_SIZE : Nat := 8

/-- One bucket: 8 tophash bytes, 8 inline keys, 8 inline values
(`struct` layout of `hashmap.c`; the overflow pointer is represented by the
position of the bucket inside its chain list). -/
structure Bucket (α β : Type) where
  tophash : List Nat
  keys : List α
  values : List β
deriving Repr, DecidableEq

/-- `struct hashmap`. `buckets` holds `bucket_count` overflow chains, each a
nonempty list whose head is the bucket embedded in the array.
`old_buckets`/`old_bucket_count`/`evacuated` are the incremental-rehashing
fields (never populated by the code, which leaves growth as a TODO). -/
structure Hashmap (α β : Type) where
  key_size : Nat
  value_size : Nat
  hash : α → Nat → Nat
  equals : α → α → Nat → Bool
  buckets : List (List (Bucket α β))
  bucket_count : Nat
  count : Nat
  hash_seed : Nat
  old_buckets : Option (List (List (Bucket α β)))
  old_bucket_count : Nat
  evacuated : Nat

/-- `calc_bucket_size`: tophash array + keys + values + overflow pointer. -/
def calc_bucket_size (key_size value_size : Nat) : Nat :=
  BUCKET_SIZE * 1 + BUCKET_SIZE * key_size + BUCKET_SIZE * value_size + PTR_SIZE

/-- Byte offset of the i-th tophash byte inside a bucket
(`get_tophash(bucket) + i`). -/
def tophash_offset (i : Nat) : Nat := i

/-- Byte offset of the i-th key (`get_key`): `bucket + 8 + i * key_size`. -/
def key_offset (key_size i : Nat) : Nat := 8 + i * key_size

/-- Byte offset of the i-th value (`get_value`):
`bucket + 8 + 8 * key_size + i * value_size`. -/
def value_offset (key_size value_size i : Nat) : Nat :=
  8 + BUCKET_SIZE * key_size + i * value_size

/-- Byte offset of the overflow pointer (`get_overflow_ptr`). -/
def overflow_offset (key_size value_size : Nat) : Nat :=
  8 + BUCKET_SIZE * key_size + BUCKET_SIZE * value_size

/-- Two byte ranges `[a, a+la)` and `[b, b+lb)` do not overlap. -/
def rangesDisjoint (a la b lb : Nat) : Prop := a + la ≤ b ∨ b + lb ≤ a

/-- `top_hash`: top 8 bits of the hash, coerced to be at least 1. -/
def top_hash (hash : Nat) : Nat :=
  let top := (hash >>> 56) % 256
  if top < 1 then 1 else top

/-- `bucket_index`: `hash & (bucket_count - 1)`. -/
def bucket_index (hash bucket_count : Nat) : Nat :=
  hash &&& (bucket_count - 1)

/-- `alloc_bucket` (successful case): a freshly `calloc`ed bucket, all
tophash entries `EMPTY` and key/value bytes zeroed. -/
def emptyBucket {α β : Type} [Inhabited α] [Inhabited β] : Bucket α β :=
  { tophash := List.replicate 8 EMPTY
    keys := List.replicate 8 default
    values := List.replicate 8 default }

/-- The slot positions `(chain position, slot index)` of a chain, in the
order `hashmap_put`/`hashmap_get` scan them: along the overflow chain, and
inside each bucket in slot order `0..BUCKET_SIZE-1`. -/
def positions {α β : Type} (chain : List (Bucket α β)) : List (Nat × Nat) :=
  (List.range chain.length).flatMap fun j => (List.range 8).map fun i => (j, i)

/-- The scan's per-slot test for an existing key, as in the loop body of
`hashmap_put`: the slot is occupied, its tophash equals `top`, and the
stored key compares equal to `key` under the map's equality function. -/
def matchAt {α β : Type} [Inhabited α] (equals : α → α → Nat → Bool)
    (key_size : Nat) (top : Nat) (key : α) (chain : List (Bucket α β))
    (pos : Nat × Nat) : Bool :=
  let b := chain.getD pos.1 ⟨[], [], []⟩
  let t := b.tophash.getD pos.2 EMPTY
  !(t == EMPTY) && (t == top) && equals (b.keys.getD pos.2 default) key key_size

/-- The scan's per-slot test for a free slot: `tophash[i] == EMPTY`. -/
def emptyAt {α β : Type} (chain : List (Bucket α β)) (pos : Nat × Nat) : Bool :=
  (chain.getD pos.1 ⟨[], [], []⟩).tophash.getD pos.2 EMPTY == EMPTY

/-- First slot of the chain holding the key (the scan's early-return match). -/
def chainFirstMatch {α β : Type} [Inhabited α] (equals : α → α → Nat → Bool)
    (key_size top : Nat) (key : α) (chain : List (Bucket α β)) :
    Option (Nat × Nat) :=
  (positions chain).find? (matchAt equals key_size top key chain)

/-- First free slot of the chain (the scan's remembered `insert_bucket` /
`insert_slot`). -/
def chainFirstEmpty {α β : Type} (chain : List (Bucket α β)) :
    Option (Nat × Nat) :=
  (positions chain).find? (emptyAt chain)

/-- Overwrite the value stored at slot `i` of the `j`-th bucket of a chain
(the `memcpy` into `get_value(...)` on the update path). -/
def chainSetValue {α β : Type} (chain : List (Bucket α β)) (j i : Nat)
    (v : β) : List (Bucket α β) :=
  match chain[j]? with
  | some b => chain.set j { b with values := b.values.set i v }
  | none => chain

/-- Write a full entry: `tophash[i] = top`, copy key, copy value. -/
def writeSlot {α β : Type} (b : Bucket α β) (i top : Nat) (k : α) (v : β) :
    Bucket α β :=
  { tophash := b.tophash.set i top
    keys := b.keys.set i k
    values := b.values.set i v }

/-- Write a full entry into slot `i` of the `j`-th bucket of a chain. -/
def chainWrite {α β : Type} (chain : List (Bucket α β)) (j i top : Nat)
    (k : α) (v : β) : List (Bucket α β) :=
  match chain[j]? with
  | some b => chain.set j (writeSlot b i top k v)
  | none => chain

/-- `hashmap_put` on a non-NULL map/key/value. `allocOk` is the allocation
oracle for the single `alloc_bucket` call the function can make (the
overflow bucket). Mirrors `hashmap.c` lines 369-442: compute hash, tophash
tag and bucket index; scan the chain for the key, remembering the first
empty slot; on a match overwrite the value in place and return; otherwise
insert into the remembered slot, or append a fresh overflow bucket at the
tail of the chain and write into its slot 0, failing cleanly if the
allocation fails; finally increment `count`. The C code then compares
`count * LOAD_FACTOR_DENOMINATOR` against
`bucket_count * BUCKET_SIZE * LOAD_FACTOR_NUMERATOR` but its growth branch
is an empty TODO, so the comparison has no effect and the embedding omits
the no-op. -/
def hashmap_put {α β : Type} [Inhabited α] [Inhabited β] (allocOk : Bool)
    (m : Hashmap α β) (key : α) (value : β) : Bool × Hashmap α β :=
  let hash := m.hash key m.key_size % 2 ^ 64
  let top := top_hash hash
  let idx := bucket_index hash m.bucket_count
  let chain := m.buckets.getD idx []
  match chainFirstMatch m.equals m.key_size top key chain with
  | some ji =>
      (true, { m with buckets := m.buckets.set idx (chainSetValue chain ji.1 ji.2 value) })
  | none =>
      match chainFirstEmpty chain with
      | some ji =>
          (true, { m with
                    buckets := m.buckets.set idx (chainWrite chain ji.1 ji.2 top key value)
                    count := m.count + 1 })
      | none =>
          if allocOk then
            (true, { m with
                      buckets := m.buckets.set idx
                        (chain ++ [writeSlot emptyBucket 0 top key value])
                      count := m.count + 1 })
          else (false, m)

/-- The NULL-argument guard of `hashmap_put` (line 364):
`if (!map || !key || !value) return false;`. -/
def hashmap_put_raw {α β : Type} [Inhabited α] [Inhabited β] (allocOk : Bool)
    (map : Option (Hashmap α β)) (key : Option α) (value : Option β) :
    Bool × Option (Hashmap α β) :=
  match map, key, value with
  | some m, some k, some v =>
      let r := hashmap_put allocOk m k v
      (r.1, some r.2)
  | _, _, _ => (false, map)

/-- Modelled from the spec: `hashmap_get` is declared in `hashmap.h` but has
no definition in the source. Per §4.2 steps 1-3: compute the hash, the
tophash tag and the bucket index exactly as the insert path does, walk the
chain, stop at the first slot whose tag matches and whose key compares
equal, and report its value; reaching the chain end without a match reports
"not found". The function is pure — it returns only the looked-up value and
no updated map, so it performs no mutation by construction. -/
def hashmap_get {α β : Type} [Inhabited α] [Inhabited β] (m : Hashmap α β)
    (key : α) : Option β :=
  let hash := m.hash key m.key_size % 2 ^ 64
  let top := top_hash hash
  let idx := bucket_index hash m.bucket_count
  let chain := m.buckets.getD idx []
  match chainFirstMatch m.equals m.key_size top key chain with
  | some ji => some ((chain.getD ji.1 ⟨[], [], []⟩).values.getD ji.2 default)
  | none => none

/-- `hashmap_create`. The two heap allocations (`malloc` of the map record,
`alloc_buckets` of the initial array) get the oracles `mallocOk` and
`bucketsOk`; `seed` stands for `time(NULL)`, cast to `uint32_t` as in the
source. Mirrors lines 264-296: reject a zero key or value size and absent
hash or equality functions, then build the record with
`INITIAL_BUCKET_COUNT` freshly zeroed buckets, zero entries and cleared
old-array fields. -/
def hashmap_create (α β : Type) [Inhabited α] [Inhabited β]
    (key_size value_size : Nat) (hash : Option (α → Nat → Nat))
    (equals : Option (α → α → Nat → Bool)) (mallocOk bucketsOk : Bool)
    (seed : Nat) : Option (Hashmap α β) :=
  if key_size == 0 || value_size == 0 || hash.isNone || equals.isNone then
    none
  else
    match hash, equals with
    | some h, some e =>
        if !mallocOk then none
        else if !bucketsOk then none
        else
          some { key_size := key_size
                 value_size := value_size
                 hash := h
                 equals := e
                 buckets := List.replicate INITIAL_BUCKET_COUNT [emptyBucket]
                 bucket_count := INITIAL_BUCKET_COUNT
                 count := 0
                 hash_seed := seed % 2 ^ 32
                 old_buckets := none
                 old_bucket_count := 0
                 evacuated := 0 }
    | _, _ => none

/-- The `uint64_t` hash `hashmap_put`/`hashmap_get` compute for a key. -/
def keyHash {α β : Type} (m : Hashmap α β) (k : α) : Nat :=
  m.hash k m.key_size % 2 ^ 64

/-- The tophash tag computed for a key (`top_hash(hash)`). -/
def keyTop {α β : Type} (m : Hashmap α β) (k : α) : Nat :=
  top_hash (keyHash m k)

/-- The bucket index computed for a key (`bucket_index(hash, count)`). -/
def keyIdx {α β : Type} (m : Hashmap α β) (k : α) : Nat :=
  bucket_index (keyHash m k) m.bucket_count

/-- The overflow chain a key's bucket index selects. -/
def keyChain {α β : Type} (m : Hashmap α β) (k : α) : List (Bucket α β) :=
  m.buckets.getD (keyIdx m k) []

/-- The first slot of the key's chain that holds the key, if any. -/
def keyMatch {α β : Type} [Inhabited α] (m : Hashmap α β) (k : α) :
    Option (Nat × Nat) :=
  chainFirstMatch m.equals m.key_size (keyTop m k) k (keyChain m k)

/-- Run a sequence of puts (each with a successful allocation oracle). -/
def putList {α β : Type} [Inhabited α] [Inhabited β] (m : Hashmap α β) :
    List (α × β) → Hashmap α β
  | [] => m
  | kv :: rest => putList (hashmap_put true m kv.1 kv.2).2 rest

/-- Well-formedness: the bucket array has `bucket_count` chains with
`bucket_count` positive, every chain is nonempty (its head is embedded in
the array), and every bucket's three inline arrays have the fixed C length
`BUCKET_SIZE = 8`. Maps built by `hashmap_create` satisfy this and
`hashmap_put` preserves it. -/
def WF {α β : Type} (m : Hashmap α β) : Prop :=
  m.buckets.length = m.bucket_count ∧ 0 < m.bucket_count ∧
    ∀ c ∈ m.buckets, 0 < c.length ∧
      ∀ b ∈ c, b.tophash.length = 8 ∧ b.keys.length = 8 ∧ b.values.length = 8

/-- The keys stored in the occupied slots of one bucket. -/
def slotKeys {α β : Type} [Inhabited α] (b : Bucket α β) : List α :=
  (List.range 8).filterMap fun i =>
    if b.tophash.getD i EMPTY == EMPTY then none else some (b.keys.getD i default)

/-- The keys stored in the occupied slots of one overflow chain. -/
def chainKeys {α β : Type} [Inhabited α] (c : List (Bucket α β)) : List α :=
  (c.map slotKeys).flatten

/-- The keys stored in the occupied slots of the whole map. -/
def mapKeys {α β : Type} [Inhabited α] (m : Hashmap α β) : List α :=
  (m.buckets.map chainKeys).flatten

instance {α β : Type} : DecidablePred (WF (α := α) (β := β)) := fun m => by
  unfold WF; infer_instance

/-! Concrete instantiations (key/value type `Nat`, i.e. small fixed-size
buffers) used to exercise the embedding on explicit inputs. -/

/-- A hash function that returns the key itself. -/
def hashNat : Nat → Nat → Nat := fun k _ => k

/-- A degenerate hash function sending every key to `0`, forcing all keys
into one bucket chain (the collision scenario of the spec's
chain-scan-correctness property). -/
def hashZero : Nat → Nat → Nat := fun _ _ => 0

/-- Equality of `Nat` keys. -/
def eqNat : Nat → Nat → Nat → Bool := fun a b _ => a == b

/-- The map `hashmap_create` builds for `key_size = 4`, `value_size = 4`,
`hashNat`, `eqNat`, seed 77. -/
def freshNat : Hashmap Nat Nat :=
  { key_size := 4
    value_size := 4
    hash := hashNat
    equals := eqNat
    buckets := List.replicate INITIAL_BUCKET_COUNT [emptyBucket]
    bucket_count := INITIAL_BUCKET_COUNT
    count := 0
    hash_seed := 77 % 2 ^ 32
    old_buckets := none
    old_bucket_count := 0
    evacuated := 0 }

/-- `freshNat` with the all-collisions hash function. -/
def freshZero : Hashmap Nat Nat := { freshNat with hash := hashZero }

/-- The `BUCKET_SIZE + 1` colliding insertions of the chain-scan scenario:
keys `0..8`, each with value `2 * key`. -/
def scenarioOps : List (Nat × Nat) := (List.range 9).map fun k => (k, 2 * k)

/-- The map after the nine colliding insertions. -/
def scenarioMap : Hashmap Nat Nat := putList freshZero scenarioOps

/-- A bucket with all eight slots occupied (tags 1, keys `0..7`). -/
def fullBucket : Bucket Nat Nat :=
  { tophash := List.replicate 8 1, keys := List.range 8, values := List.range 8 }

/-- The map after one put of key 3, value 7 on `freshNat`. -/
def exampleMap1 : Hashmap Nat Nat := (hashmap_put true freshNat 3 7).2

/-- A one-bucket map whose single chain is completely full: the next insert
of a fresh key must allocate an overflow bucket. -/
def mFull : Hashmap Nat Nat :=
  { key_size := 4
    value_size := 4
    hash := hashZero
    equals := eqNat
    buckets := [[fullBucket]]
    bucket_count := 1
    count := 8
    hash_seed := 0
    old_buckets := none
    old_bucket_count := 0
    evacuated := 0 }

/-- `mFull` with its entry count raised to 52: one more successful put makes
`count * 2 = 106` exceed `bucket_count * BUCKET_SIZE * 13 = 104`, so the
load-factor test of `hashmap_put` fires. -/
def mLoaded : Hashmap Nat Nat := { mFull with count := 52 }

/-! Generic list lemmas used throughout. -/

theorem find?_congr {γ : Type} {f g : γ → Bool} :
    ∀ {l : List γ}, (∀ x ∈ l, f x = g x) → l.find? f = l.find? g
  | [], _ => rfl
  | b :: t, h => by
      have hb := h b (List.mem_cons_self b t)
      by_cases hfb : f b = true
      · simp [List.find?, hfb, hb ▸ hfb]
      · have hfb' : f b = false := by revert hfb; cases f b <;> simp
        have hgb : g b = false := hb ▸ hfb'
        simp only [List.find?, hfb', hgb]
        exact find?_congr fun x hx => h x (List.mem_cons_of_mem b hx)

theorem find?_eq_some_of_unique {γ : Type} {f : γ → Bool} {a : γ} :
    ∀ {l : List γ}, a ∈ l → f a = true → (∀ x ∈ l, f x = true → x = a) →
      l.find? f = some a
  | [], ha, _, _ => absurd ha (List.not_mem_nil a)
  | b :: t, ha, hfa, hu => by
      by_cases hfb : f b = true
      · have hba : b = a := hu b (List.mem_cons_self b t) hfb
        subst hba
        simp [List.find?, hfb]
      · have hfb' : f b = false := by revert hfb; cases f b <;> simp
        have hat : a ∈ t := by
          rcases List.mem_cons.mp ha with h | h
          · exact absurd (h ▸ hfa) (by simp [hfb'])
          · exact h
        simp only [List.find?, hfb']
        exact find?_eq_some_of_unique hat hfa
          fun x hx hfx => hu x (List.mem_cons_of_mem b hx) hfx

theorem getD_set_self {γ : Type} {l : List γ} {i : Nat} (h : i < l.length)
    (a d : γ) : (l.set i a).getD i d = a := by
  simp [List.getD_eq_getElem?_getD, List.getElem?_set_self h]

theorem getD_set_ne {γ : Type} {l : List γ} {i j : Nat} (h : i ≠ j)
    (a d : γ) : (l.set i a).getD j d = l.getD j d := by
  simp [List.getD_eq_getElem?_getD, List.getElem?_set_ne h]

theorem getD_append_left {γ : Type} {l₁ l₂ : List γ} {n : Nat}
    (h : n < l₁.length) (d : γ) : (l₁ ++ l₂).getD n d = l₁.getD n d := by
  simp [List.getD_eq_getElem?_getD, List.getElem?_append_left h]

theorem getD_append_len {γ : Type} (l₁ l₂ : List γ) (d : γ) :
    (l₁ ++ l₂).getD l₁.length d = l₂.getD 0 d := by
  simp [List.getD_eq_getElem?_getD, List.getElem?_append_right (Nat.le_refl _)]

theorem getD_replicate {γ : Type} {n i : Nat} (h : i < n) (a d : γ) :
    (List.replicate n a).getD i d = a := by
  simp [List.getD_eq_getElem?_getD, List.getElem?_replicate, h]

theorem getD_mem {γ : Type} {l : List γ} {i : Nat} (h : i < l.length)
    (d : γ) : l.getD i d ∈ l := by
  rw [List.getD_eq_getElem l d h]; exact List.getElem_mem h

theorem mem_positions {α β : Type} (c : List (Bucket α β)) (j i : Nat) :
    (j, i) ∈ positions c ↔ j < c.length ∧ i < 8 := by
  simp only [positions, List.mem_flatMap, List.mem_map, List.mem_range,
    Prod.mk.injEq]
  constructor
  · rintro ⟨j', hj', i', hi', hj'', hi''⟩
    exact ⟨hj'' ▸ hj', hi'' ▸ hi'⟩
  · rintro ⟨hj, hi⟩
    exact ⟨j, hj, i, hi, rfl, rfl⟩

theorem positions_set {α β : Type} (c : List (Bucket α β)) (j : Nat)
    (b : Bucket α β) : positions (c.set j b) = positions c := by
  simp [positions, List.length_set]

/-! Facts about the hash-derived quantities and the chain operations. -/

theorem top_hash_ne_zero (h : Nat) : top_hash h ≠ 0 := by
  simp only [top_hash]
  split <;> omega

theorem bucket_index_lt {bc : Nat} (h : Nat) (hbc : 0 < bc) :
    bucket_index h bc < bc := by
  have := Nat.and_le_right (n := h) (m := bc - 1)
  simp only [bucket_index]
  omega

theorem length_chainSetValue {α β : Type} (c : List (Bucket α β)) (j i : Nat)
    (v : β) : (chainSetValue c j i v).length = c.length := by
  unfold chainSetValue
  split <;> simp

theorem length_chainWrite {α β : Type} (c : List (Bucket α β)) (j i t : Nat)
    (k : α) (v : β) : (chainWrite c j i t k v).length = c.length := by
  unfold chainWrite
  split <;> simp

theorem chainSetValue_of_le {α β : Type} {c : List (Bucket α β)} {j : Nat}
    (h : c.length ≤ j) (i : Nat) (v : β) : chainSetValue c j i v = c := by
  unfold chainSetValue
  rw [List.getElem?_eq_none h]

theorem chainWrite_of_le {α β : Type} {c : List (Bucket α β)} {j : Nat}
    (h : c.length ≤ j) (i t : Nat) (k : α) (v : β) :
    chainWrite c j i t k v = c := by
  unfold chainWrite
  rw [List.getElem?_eq_none h]

theorem chainSetValue_getD_self {α β : Type} {c : List (Bucket α β)} {j : Nat}
    (hj : j < c.length) (i : Nat) (v : β) (d : Bucket α β) :
    (chainSetValue c j i v).getD j d =
      { c.getD j d with values := (c.getD j d).values.set i v } := by
  simp only [chainSetValue, List.getElem?_eq_getElem hj]
  rw [getD_set_self (by simpa using hj), List.getD_eq_getElem c d hj]

theorem chainSetValue_getD_ne {α β : Type} {c : List (Bucket α β)} {j j' : Nat}
    (hne : j ≠ j') (i : Nat) (v : β) (d : Bucket α β) :
    (chainSetValue c j i v).getD j' d = c.getD j' d := by
  unfold chainSetValue
  split
  · exact getD_set_ne hne _ _
  · rfl

theorem chainWrite_getD_self {α β : Type} {c : List (Bucket α β)} {j : Nat}
    (hj : j < c.length) (i t : Nat) (k : α) (v : β) (d : Bucket α β) :
    (chainWrite c j i t k v).getD j d = writeSlot (c.getD j d) i t k v := by
  simp only [chainWrite, List.getElem?_eq_getElem hj]
  rw [getD_set_self (by simpa using hj), List.getD_eq_getElem c d hj]

theorem chainWrite_getD_ne {α β : Type} {c : List (Bucket α β)} {j j' : Nat}
    (hne : j ≠ j') (i t : Nat) (k : α) (v : β) (d : Bucket α β) :
    (chainWrite c j i t k v).getD j' d = c.getD j' d := by
  unfold chainWrite
  split
  · exact getD_set_ne hne _ _
  · rfl

theorem positions_chainSetValue {α β : Type} (c : List (Bucket α β))
    (j i : Nat) (v : β) : positions (chainSetValue c j i v) = positions c := by
  unfold positions
  rw [length_chainSetValue]

theorem positions_chainWrite {α β : Type} (c : List (Bucket α β))
    (j i t : Nat) (k : α) (v : β) :
    positions (chainWrite c j i t k v) = positions c := by
  unfold positions
  rw [length_chainWrite]

theorem matchAt_chainSetValue {α β : Type} [Inhabited α]
    (e : α → α → Nat → Bool) (ks top : Nat) (k : α) (c : List (Bucket α β))
    (j i : Nat) (v : β) (p : Nat × Nat) :
    matchAt e ks top k (chainSetValue c j i v) p = matchAt e ks top k c p := by
  by_cases hj : j < c.length
  · by_cases hp : j = p.1
    · subst hp
      unfold matchAt
      rw [chainSetValue_getD_self hj]
    · unfold matchAt
      rw [chainSetValue_getD_ne hp]
  · rw [chainSetValue_of_le (Nat.le_of_not_lt hj)]

theorem matchAt_chainWrite_ne {α β : Type} [Inhabited α]
    {e : α → α → Nat → Bool} {ks top : Nat} {k : α} {c : List (Bucket α β)}
    {j i t : Nat} {kk : α} {v : β} {p : Nat × Nat} (hp : p ≠ (j, i)) :
    matchAt e ks top k (chainWrite c j i t kk v) p = matchAt e ks top k c p := by
  obtain ⟨p1, p2⟩ := p
  by_cases hj : j < c.length
  · by_cases hpj : j = p1
    · subst hpj
      have hpi : p2 ≠ i := by
        intro h2
        exact hp (by rw [h2])
      unfold matchAt
      dsimp only
      rw [chainWrite_getD_self hj]
      unfold writeSlot
      dsimp only
      rw [getD_set_ne hpi.symm, getD_set_ne hpi.symm]
    · unfold matchAt
      dsimp only
      rw [chainWrite_getD_ne hpj]
  · rw [chainWrite_of_le (Nat.le_of_not_lt hj)]

theorem matchAt_chainWrite_self {α β : Type} [Inhabited α]
    {e : α → α → Nat → Bool} {ks : Nat} {k : α} {c : List (Bucket α β)}
    {j i t : Nat} {kk : α} {v : β} (hj : j < c.length) (ht : t ≠ 0)
    (h8t : i < (c.getD j ⟨[], [], []⟩).tophash.length)
    (h8k : i < (c.getD j ⟨[], [], []⟩).keys.length)
    (he : e kk k ks = true) :
    matchAt e ks t k (chainWrite c j i t kk v) (j, i) = true := by
  unfold matchAt
  dsimp only
  rw [chainWrite_getD_self hj]
  unfold writeSlot
  dsimp only
  rw [getD_set_self (by simpa using h8t), getD_set_self (by simpa using h8k)]
  simp [EMPTY, ht, he]

theorem chainFirstMatch_chainSetValue {α β : Type} [Inhabited α]
    (e : α → α → Nat → Bool) (ks top : Nat) (k : α) (c : List (Bucket α β))
    (j i : Nat) (v : β) :
    chainFirstMatch e ks top k (chainSetValue c j i v) =
      chainFirstMatch e ks top k c := by
  unfold chainFirstMatch
  rw [positions_chainSetValue]
  exact find?_congr fun p _ => matchAt_chainSetValue e ks top k c j i v p

theorem chainSetValue_value {α β : Type} {c : List (Bucket α β)} {j i : Nat}
    (hj : j < c.length)
    (hi : i < (c.getD j ⟨[], [], []⟩).values.length) (v : β) (dv : β) :
    ((chainSetValue c j i v).getD j ⟨[], [], []⟩).values.getD i dv = v := by
  rw [chainSetValue_getD_self hj]
  exact getD_set_self hi v dv

theorem chainWrite_value {α β : Type} {c : List (Bucket α β)} {j i : Nat}
    (hj : j < c.length)
    (hi : i < (c.getD j ⟨[], [], []⟩).values.length) (t : Nat) (k : α)
    (v : β) (dv : β) :
    ((chainWrite c j i t k v).getD j ⟨[], [], []⟩).values.getD i dv = v := by
  rw [chainWrite_getD_self hj]
  unfold writeSlot
  dsimp only
  exact getD_set_self hi v dv

theorem put_fields {α β : Type} [Inhabited α] [Inhabited β] (a : Bool)
    (m : Hashmap α β) (k : α) (v : β) :
    (hashmap_put a m k v).2.key_size = m.key_size ∧
    (hashmap_put a m k v).2.value_size = m.value_size ∧
    (hashmap_put a m k v).2.hash = m.hash ∧
    (hashmap_put a m k v).2.equals = m.equals ∧
    (hashmap_put a m k v).2.bucket_count = m.bucket_count ∧
    (hashmap_put a m k v).2.hash_seed = m.hash_seed ∧
    (hashmap_put a m k v).2.old_buckets = m.old_buckets ∧
    (hashmap_put a m k v).2.old_bucket_count = m.old_bucket_count ∧
    (hashmap_put a m k v).2.evacuated = m.evacuated := by
  simp only [hashmap_put]
  split
  · simp
  · split
    · simp
    · split <;> simp

theorem nb_tophash_getD {α β : Type} [Inhabited α] [Inhabited β] (t : Nat)
    (k : α) (v : β) {i : Nat} (hi : i < 8) (d : Nat) :
    (writeSlot (emptyBucket (α := α) (β := β)) 0 t k v).tophash.getD i d =
      if i = 0 then t else EMPTY := by
  unfold writeSlot emptyBucket
  dsimp only
  by_cases h0 : i = 0
  · subst h0
    rw [getD_set_self (by simp)]
    simp
  · rw [getD_set_ne (fun hh => h0 hh.symm), getD_replicate hi]
    simp [h0]

theorem nb_keys_getD {α β : Type} [Inhabited α] [Inhabited β] (t : Nat)
    (k : α) (v : β) (d : α) :
    (writeSlot (emptyBucket (α := α) (β := β)) 0 t k v).keys.getD 0 d = k := by
  unfold writeSlot emptyBucket
  dsimp only
  rw [getD_set_self (by simp)]

theorem nb_values_getD {α β : Type} [Inhabited α] [Inhabited β] (t : Nat)
    (k : α) (v : β) (d : β) :
    (writeSlot (emptyBucket (α := α) (β := β)) 0 t k v).values.getD 0 d = v := by
  unfold writeSlot emptyBucket
  dsimp only
  rw [getD_set_self (by simp)]

theorem matchAt_append_left {α β : Type} [Inhabited α]
    {e : α → α → Nat → Bool} {ks t : Nat} {k : α} {c l2 : List (Bucket α β)}
    {p : Nat × Nat} (hp : p.1 < c.length) :
    matchAt e ks t k (c ++ l2) p = matchAt e ks t k c p := by
  unfold matchAt
  rw [getD_append_left hp]

theorem getD_append_singleton {α β : Type} (c : List (Bucket α β))
    (b d : Bucket α β) : (c ++ [b]).getD c.length d = b := by
  rw [getD_append_len]
  rfl

theorem top_hash_beq_empty (h : Nat) : (top_hash h == EMPTY) = false := by
  apply beq_false_of_ne
  simpa [EMPTY] using top_hash_ne_zero h

/-- Core roundtrip lemma: when `hashmap_put` reports success, the modelled
`hashmap_get` of the same key on the updated map returns the value just
written (requires the map's equality function to relate the key to
itself). -/
theorem get_after_put {α β : Type} [Inhabited α] [Inhabited β] (a : Bool)
    (m : Hashmap α β) (k : α) (v : β) (hwf : WF m)
    (hk : m.equals k k m.key_size = true)
    (hs : (hashmap_put a m k v).1 = true) :
    hashmap_get (hashmap_put a m k v).2 k = some v := by
  have hbc : 0 < m.bucket_count := hwf.2.1
  have hlen : m.buckets.length = m.bucket_count := hwf.1
  have hidx : bucket_index (m.hash k m.key_size % 2 ^ 64) m.bucket_count <
      m.buckets.length := by
    rw [hlen]
    exact bucket_index_lt _ hbc
  have hchain_mem : m.buckets.getD
      (bucket_index (m.hash k m.key_size % 2 ^ 64) m.bucket_count) [] ∈
      m.buckets := getD_mem hidx []
  have hchain8 := (hwf.2.2 _ hchain_mem).2
  simp only [hashmap_put] at hs ⊢
  split at hs
  next ji hji =>
    obtain ⟨j, i⟩ := ji
    have hfind := hji
    unfold chainFirstMatch at hfind
    have hmem := List.mem_of_find?_eq_some hfind
    have hbounds := (mem_positions _ j i).mp hmem
    have hb8 := hchain8 _ (getD_mem hbounds.1 ⟨[], [], []⟩)
    simp only [hji]
    simp only [hashmap_get]
    rw [getD_set_self hidx]
    rw [chainFirstMatch_chainSetValue, hji]
    dsimp only
    rw [chainSetValue_value hbounds.1 (by rw [hb8.2.2]; exact hbounds.2) v default]
  next hji =>
    split at hs
    next ji hemp =>
      obtain ⟨j, i⟩ := ji
      have hfind := hemp
      unfold chainFirstEmpty at hfind
      have hmem := List.mem_of_find?_eq_some hfind
      have hbounds := (mem_positions _ j i).mp hmem
      have hb8 := hchain8 _ (getD_mem hbounds.1 ⟨[], [], []⟩)
      have hnone : ∀ p ∈ positions (m.buckets.getD
          (bucket_index (m.hash k m.key_size % 2 ^ 64) m.bucket_count) []),
          ¬ matchAt m.equals m.key_size
            (top_hash (m.hash k m.key_size % 2 ^ 64)) k
            (m.buckets.getD
              (bucket_index (m.hash k m.key_size % 2 ^ 64) m.bucket_count) [])
            p = true := by
        have hji' := hji
        unfold chainFirstMatch at hji'
        exact List.find?_eq_none.mp hji'
      have hnew : chainFirstMatch m.equals m.key_size
          (top_hash (m.hash k m.key_size % 2 ^ 64)) k
          (chainWrite
            (m.buckets.getD
              (bucket_index (m.hash k m.key_size % 2 ^ 64) m.bucket_count) [])
            j i (top_hash (m.hash k m.key_size % 2 ^ 64)) k v) =
          some (j, i) := by
        unfold chainFirstMatch
        apply find?_eq_some_of_unique
        · rw [positions_chainWrite]
          exact hmem
        · exact matchAt_chainWrite_self hbounds.1 (top_hash_ne_zero _)
            (by rw [hb8.1]; exact hbounds.2)
            (by rw [hb8.2.1]; exact hbounds.2) hk
        · intro x hx hfx
          by_cases hxe : x = (j, i)
          · exact hxe
          · exfalso
            rw [matchAt_chainWrite_ne hxe] at hfx
            rw [positions_chainWrite] at hx
            exact hnone x hx hfx
      simp only [hji, hemp]
      simp only [hashmap_get]
      rw [getD_set_self hidx]
      rw [hnew]
      dsimp only
      rw [chainWrite_value hbounds.1 (by rw [hb8.2.2]; exact hbounds.2)]
    next hempn =>
      split at hs
      next ha =>
        have hnone : ∀ p ∈ positions (m.buckets.getD
            (bucket_index (m.hash k m.key_size % 2 ^ 64) m.bucket_count) []),
            ¬ matchAt m.equals m.key_size
              (top_hash (m.hash k m.key_size % 2 ^ 64)) k
              (m.buckets.getD
                (bucket_index (m.hash k m.key_size % 2 ^ 64) m.bucket_count) [])
              p = true := by
          have hji' := hji
          unfold chainFirstMatch at hji'
          exact List.find?_eq_none.mp hji'
        have hnew : chainFirstMatch m.equals m.key_size
            (top_hash (m.hash k m.key_size % 2 ^ 64)) k
            ((m.buckets.getD
                (bucket_index (m.hash k m.key_size % 2 ^ 64) m.bucket_count) [])
              ++ [writeSlot emptyBucket 0
                    (top_hash (m.hash k m.key_size % 2 ^ 64)) k v]) =
            some ((m.buckets.getD
                (bucket_index (m.hash k m.key_size % 2 ^ 64) m.bucket_count)
                []).length, 0) := by
          unfold chainFirstMatch
          apply find?_eq_some_of_unique
          · rw [mem_positions]
            constructor
            · simp
            · omega
          · unfold matchAt
            dsimp only
            rw [getD_append_singleton]
            unfold writeSlot emptyBucket
            dsimp only
            rw [getD_set_self (by simp), getD_set_self (by simp)]
            simp [top_hash_beq_empty, hk]
          · intro x hx hfx
            obtain ⟨j', i'⟩ := x
            rw [mem_positions] at hx
            by_cases hj' : j' < (m.buckets.getD
                (bucket_index (m.hash k m.key_size % 2 ^ 64) m.bucket_count)
                []).length
            · exfalso
              rw [matchAt_append_left hj'] at hfx
              exact hnone (j', i') ((mem_positions _ _ _).mpr ⟨hj', hx.2⟩) hfx
            · have hjeq : j' = (m.buckets.getD
                  (bucket_index (m.hash k m.key_size % 2 ^ 64) m.bucket_count)
                  []).length := by
                have h1 := hx.1
                simp only [List.length_append, List.length_cons,
                  List.length_nil] at h1
                omega
              subst hjeq
              by_cases hi0 : i' = 0
              · subst hi0
                rfl
              · exfalso
                unfold matchAt at hfx
                dsimp only at hfx
                rw [getD_append_singleton] at hfx
                unfold writeSlot emptyBucket at hfx
                dsimp only at hfx
                rw [getD_set_ne (fun hh => hi0 hh.symm),
                  getD_replicate hx.2] at hfx
                simp [EMPTY] at hfx
        simp only [hji, hempn, ha, if_true]
        simp only [hashmap_get]
        rw [getD_set_self hidx]
        rw [hnew]
        dsimp only
        rw [getD_append_singleton]
        unfold writeSlot emptyBucket
        dsimp only
        rw [getD_set_self (by simp)]
      next ha =>
        simp at hs

/-! Branch characterizations of `hashmap_put`. -/

theorem put_match_eq {α β : Type} [Inhabited α] [Inhabited β] (a : Bool)
    {m : Hashmap α β} {k : α} {ji : Nat × Nat} (v : β)
    (hm : keyMatch m k = some ji) :
    hashmap_put a m k v =
      (true, { m with buckets := (m.buckets.set (keyIdx m k)
                (chainSetValue (keyChain m k) ji.1 ji.2 v)) }) := by
  have hm' : chainFirstMatch m.equals m.key_size
      (top_hash (m.hash k m.key_size % 2 ^ 64)) k
      (m.buckets.getD
        (bucket_index (m.hash k m.key_size % 2 ^ 64) m.bucket_count) []) =
      some ji := hm
  simp only [hashmap_put, hm']
  rfl

theorem put_insert_eq {α β : Type} [Inhabited α] [Inhabited β] (a : Bool)
    {m : Hashmap α β} {k : α} {ji : Nat × Nat} (v : β)
    (hm : keyMatch m k = none)
    (he : chainFirstEmpty (keyChain m k) = some ji) :
    hashmap_put a m k v =
      (true, { m with
                buckets := m.buckets.set (keyIdx m k)
                  (chainWrite (keyChain m k) ji.1 ji.2 (keyTop m k) k v)
                count := m.count + 1 }) := by
  have hm' : chainFirstMatch m.equals m.key_size
      (top_hash (m.hash k m.key_size % 2 ^ 64)) k
      (m.buckets.getD
        (bucket_index (m.hash k m.key_size % 2 ^ 64) m.bucket_count) []) =
      none := hm
  have he' : chainFirstEmpty
      (m.buckets.getD
        (bucket_index (m.hash k m.key_size % 2 ^ 64) m.bucket_count) []) =
      some ji := he
  simp only [hashmap_put, hm', he']
  rfl

theorem put_append_eq {α β : Type} [Inhabited α] [Inhabited β]
    {m : Hashmap α β} {k : α} (v : β)
    (hm : keyMatch m k = none)
    (he : chainFirstEmpty (keyChain m k) = none) :
    hashmap_put true m k v =
      (true, { m with
                buckets := m.buckets.set (keyIdx m k)
                  (keyChain m k ++ [writeSlot emptyBucket 0 (keyTop m k) k v])
                count := m.count + 1 }) := by
  have hm' : chainFirstMatch m.equals m.key_size
      (top_hash (m.hash k m.key_size % 2 ^ 64)) k
      (m.buckets.getD
        (bucket_index (m.hash k m.key_size % 2 ^ 64) m.bucket_count) []) =
      none := hm
  have he' : chainFirstEmpty
      (m.buckets.getD
        (bucket_index (m.hash k m.key_size % 2 ^ 64) m.bucket_count) []) =
      none := he
  simp only [hashmap_put, hm', he', if_true]
  rfl

theorem put_alloc_fail_eq {α β : Type} [Inhabited α] [Inhabited β]
    {m : Hashmap α β} {k : α} (v : β)
    (hm : keyMatch m k = none)
    (he : chainFirstEmpty (keyChain m k) = none) :
    hashmap_put false m k v = (false, m) := by
  have hm' : chainFirstMatch m.equals m.key_size
      (top_hash (m.hash k m.key_size % 2 ^ 64)) k
      (m.buckets.getD
        (bucket_index (m.hash k m.key_size % 2 ^ 64) m.bucket_count) []) =
      none := hm
  have he' : chainFirstEmpty
      (m.buckets.getD
        (bucket_index (m.hash k m.key_size % 2 ^ 64) m.bucket_count) []) =
      none := he
  simp only [hashmap_put, hm', he', Bool.false_eq_true, if_false]

/-- The modelled `hashmap_get`, characterized through `keyMatch`. -/
theorem get_eq_keyMatch {α β : Type} [Inhabited α] [Inhabited β]
    (m : Hashmap α β) (k : α) :
    hashmap_get m k =
      match keyMatch m k with
      | some ji => some (((keyChain m k).getD ji.1 ⟨[], [], []⟩).values.getD
          ji.2 default)
      | none => none := rfl

/-! Preservation of well-formedness. -/

theorem WF_put {α β : Type} [Inhabited α] [Inhabited β] (a : Bool)
    (m : Hashmap α β) (k : α) (v : β) (hwf : WF m) :
    WF (hashmap_put a m k v).2 := by
  have hidx : keyIdx m k < m.buckets.length := by
    rw [hwf.1]
    exact bucket_index_lt _ hwf.2.1
  have hchain := hwf.2.2 _ (getD_mem hidx ([] : List (Bucket α β)))
  cases hm : keyMatch m k with
  | some ji =>
      rw [put_match_eq a v hm]
      refine ⟨by simpa using hwf.1, hwf.2.1, ?_⟩
      intro c hc
      dsimp only at hc
      rcases List.mem_or_eq_of_mem_set hc with hc | hc
      · exact hwf.2.2 c hc
      · subst hc
        refine ⟨by rw [length_chainSetValue]; exact hchain.1, ?_⟩
        intro b hb
        unfold chainSetValue at hb
        split at hb
        next b0 hb0 =>
          rcases List.mem_or_eq_of_mem_set hb with hb | hb
          · exact hchain.2 b hb
          · subst hb
            have hb0mem : b0 ∈ keyChain m k := by
              rcases List.getElem?_eq_some_iff.mp hb0 with ⟨hlt, hEq⟩
              rw [← hEq]
              exact List.getElem_mem hlt
            have hl := hchain.2 b0 hb0mem
            exact ⟨hl.1, hl.2.1, by simpa using hl.2.2⟩
        next hb0 => exact hchain.2 b hb
  | none =>
      cases he : chainFirstEmpty (keyChain m k) with
      | some ji =>
          rw [put_insert_eq a v hm he]
          refine ⟨by simpa using hwf.1, hwf.2.1, ?_⟩
          intro c hc
          dsimp only at hc
          rcases List.mem_or_eq_of_mem_set hc with hc | hc
          · exact hwf.2.2 c hc
          · subst hc
            refine ⟨by rw [length_chainWrite]; exact hchain.1, ?_⟩
            intro b hb
            unfold chainWrite at hb
            split at hb
            next b0 hb0 =>
              rcases List.mem_or_eq_of_mem_set hb with hb | hb
              · exact hchain.2 b hb
              · subst hb
                have hb0mem : b0 ∈ keyChain m k := by
                  rcases List.getElem?_eq_some_iff.mp hb0 with ⟨hlt, hEq⟩
                  rw [← hEq]
                  exact List.getElem_mem hlt
                have hl := hchain.2 b0 hb0mem
                unfold writeSlot
                exact ⟨by simpa using hl.1, by simpa using hl.2.1,
                  by simpa using hl.2.2⟩
            next hb0 => exact hchain.2 b hb
      | none =>
          cases a with
          | false =>
              rw [put_alloc_fail_eq v hm he]
              exact hwf
          | true =>
              rw [put_append_eq v hm he]
              refine ⟨by simpa using hwf.1, hwf.2.1, ?_⟩
              intro c hc
              dsimp only at hc
              rcases List.mem_or_eq_of_mem_set hc with hc | hc
              · exact hwf.2.2 c hc
              · subst hc
                refine ⟨by simp, ?_⟩
                intro b hb
                rcases List.mem_append.mp hb with hb | hb
                · exact hchain.2 b hb
                · have hbnb : b = writeSlot emptyBucket 0 (keyTop m k) k v := by
                    simpa using hb
                  subst hbnb
                  unfold writeSlot emptyBucket
                  refine ⟨by simp, by simp, by simp⟩

theorem WF_putList {α β : Type} [Inhabited α] [Inhabited β]
    (m : Hashmap α β) (hwf : WF m) :
    ∀ ops : List (α × β), WF (putList m ops)
  | [] => hwf
  | kv :: rest =>
      WF_putList (hashmap_put true m kv.1 kv.2).2
        (WF_put true m kv.1 kv.2 hwf) rest

/-! `hashmap_create`: characterization of the success case. -/

theorem create_eq_some {α β : Type} [Inhabited α] [Inhabited β]
    {ks vs : Nat} {hf : Option (α → Nat → Nat)}
    {ef : Option (α → α → Nat → Bool)} {mo bo : Bool} {s : Nat}
    {m0 : Hashmap α β}
    (h : hashmap_create α β ks vs hf ef mo bo s = some m0) :
    ∃ hh ee, hf = some hh ∧ ef = some ee ∧ ks ≠ 0 ∧ vs ≠ 0 ∧
      mo = true ∧ bo = true ∧
      m0 = { key_size := ks
             value_size := vs
             hash := hh
             equals := ee
             buckets := List.replicate INITIAL_BUCKET_COUNT [emptyBucket]
             bucket_count := INITIAL_BUCKET_COUNT
             count := 0
             hash_seed := s % 2 ^ 32
             old_buckets := none
             old_bucket_count := 0
             evacuated := 0 } := by
  rcases hf with _ | hh
  · exfalso
    unfold hashmap_create at h
    simp at h
  rcases ef with _ | ee
  · exfalso
    unfold hashmap_create at h
    simp at h
  by_cases hks : ks = 0
  · exfalso
    unfold hashmap_create at h
    simp [hks] at h
  by_cases hvs : vs = 0
  · exfalso
    unfold hashmap_create at h
    simp [hvs] at h
  have hc : ¬((ks == 0 || vs == 0 ||
      (some hh).isNone || (some ee).isNone) = true) := by
    simp [hks, hvs]
  unfold hashmap_create at h
  rw [if_neg hc] at h
  dsimp only at h
  cases mo with
  | false =>
      exfalso
      simp at h
  | true =>
      cases bo with
      | false =>
          exfalso
          simp at h
      | true =>
          refine ⟨hh, ee, rfl, rfl, hks, hvs, rfl, rfl, ?_⟩
          simp only [Bool.not_true, Bool.false_eq_true, if_false] at h
          exact (Option.some.inj h).symm

theorem WF_create {α β : Type} [Inhabited α] [Inhabited β]
    {ks vs : Nat} {hf : Option (α → Nat → Nat)}
    {ef : Option (α → α → Nat → Bool)} {mo bo : Bool} {s : Nat}
    {m0 : Hashmap α β}
    (h : hashmap_create α β ks vs hf ef mo bo s = some m0) : WF m0 := by
  obtain ⟨hh, ee, _, _, _, _, _, _, rfl⟩ := create_eq_some h
  refine ⟨by simp, by simp [INITIAL_BUCKET_COUNT], ?_⟩
  intro c hc
  have hc' : c = [emptyBucket] := by
    simpa using List.eq_of_mem_replicate hc
  subst hc'
  refine ⟨by simp, ?_⟩
  intro b hb
  have hb' : b = emptyBucket := by simpa using hb
  subst hb'
  unfold emptyBucket
  exact ⟨by simp, by simp, by simp⟩

/-! Stored-key bookkeeping: which keys occupy slots of the map. -/

theorem mem_slotKeys {α β : Type} [Inhabited α] {x : α} {b : Bucket α β} :
    x ∈ slotKeys b ↔ ∃ i, i < 8 ∧ (b.tophash.getD i EMPTY == EMPTY) = false ∧
      x = b.keys.getD i default := by
  unfold slotKeys
  rw [List.mem_filterMap]
  constructor
  · rintro ⟨i, hi, hf⟩
    rw [List.mem_range] at hi
    by_cases hcond : (b.tophash.getD i EMPTY == EMPTY) = true
    · rw [if_pos hcond] at hf
      cases hf
    · rw [if_neg hcond] at hf
      refine ⟨i, hi, ?_, (Option.some.inj hf).symm⟩
      revert hcond
      cases b.tophash.getD i EMPTY == EMPTY <;> simp
  · rintro ⟨i, hi, hcond, rfl⟩
    refine ⟨i, List.mem_range.mpr hi, ?_⟩
    rw [if_neg (by rw [hcond]; simp)]

theorem slotKeys_emptyBucket {α β : Type} [Inhabited α] [Inhabited β] :
    slotKeys (emptyBucket (α := α) (β := β)) = [] := by
  rw [List.eq_nil_iff_forall_not_mem]
  intro x hx
  rcases mem_slotKeys.mp hx with ⟨i, hi, hcond, _⟩
  unfold emptyBucket at hcond
  rw [getD_replicate hi] at hcond
  simp at hcond

theorem mem_slotKeys_writeSlot {α β : Type} [Inhabited α] {x : α}
    {b : Bucket α β} {i t : Nat} {k : α} {v : β}
    (h8k : b.keys.length = 8) (hi : i < 8)
    (hx : x ∈ slotKeys (writeSlot b i t k v)) : x ∈ slotKeys b ∨ x = k := by
  rcases mem_slotKeys.mp hx with ⟨i', hi', hcond, rfl⟩
  unfold writeSlot at hcond ⊢
  dsimp only at hcond ⊢
  by_cases hii : i' = i
  · subst hii
    right
    exact getD_set_self (by rw [h8k]; exact hi') k default
  · left
    rw [getD_set_ne (fun hh => hii hh.symm)] at hcond
    rw [getD_set_ne (fun hh => hii hh.symm)]
    exact mem_slotKeys.mpr ⟨i', hi', hcond, rfl⟩

theorem mem_slotKeys_newBucket {α β : Type} [Inhabited α] [Inhabited β]
    {x : α} {t : Nat} {k : α} {v : β}
    (hx : x ∈ slotKeys (writeSlot (emptyBucket (α := α) (β := β)) 0 t k v)) :
    x = k := by
  rcases mem_slotKeys.mp hx with ⟨i', hi', hcond, rfl⟩
  by_cases hii : i' = 0
  · subst hii
    exact nb_keys_getD t k v default
  · exfalso
    rw [nb_tophash_getD t k v hi' EMPTY] at hcond
    simp [hii] at hcond

theorem mem_chainKeys {α β : Type} [Inhabited α] {x : α}
    {c : List (Bucket α β)} :
    x ∈ chainKeys c ↔ ∃ b ∈ c, x ∈ slotKeys b := by
  unfold chainKeys
  rw [List.mem_flatten]
  constructor
  · rintro ⟨l, hl, hx⟩
    rcases List.mem_map.mp hl with ⟨b, hb, rfl⟩
    exact ⟨b, hb, hx⟩
  · rintro ⟨b, hb, hx⟩
    exact ⟨slotKeys b, List.mem_map.mpr ⟨b, hb, rfl⟩, hx⟩

theorem mem_mapKeys {α β : Type} [Inhabited α] {x : α} {m : Hashmap α β} :
    x ∈ mapKeys m ↔ ∃ c ∈ m.buckets, x ∈ chainKeys c := by
  unfold mapKeys
  rw [List.mem_flatten]
  constructor
  · rintro ⟨l, hl, hx⟩
    rcases List.mem_map.mp hl with ⟨c, hc, rfl⟩
    exact ⟨c, hc, hx⟩
  · rintro ⟨c, hc, hx⟩
    exact ⟨chainKeys c, List.mem_map.mpr ⟨c, hc, rfl⟩, hx⟩

theorem mem_chainKeys_chainSetValue {α β : Type} [Inhabited α] {x : α}
    {c : List (Bucket α β)} {j i : Nat} {v : β}
    (hx : x ∈ chainKeys (chainSetValue c j i v)) : x ∈ chainKeys c := by
  unfold chainSetValue at hx
  split at hx
  next b0 hb0 =>
    rcases mem_chainKeys.mp hx with ⟨b, hb, hbx⟩
    rcases List.mem_or_eq_of_mem_set hb with hb | hb
    · exact mem_chainKeys.mpr ⟨b, hb, hbx⟩
    · subst hb
      have hb0mem : b0 ∈ c := by
        rcases List.getElem?_eq_some_iff.mp hb0 with ⟨hlt, hEq⟩
        rw [← hEq]
        exact List.getElem_mem hlt
      exact mem_chainKeys.mpr ⟨b0, hb0mem, hbx⟩
  next => exact hx

theorem mem_chainKeys_chainWrite {α β : Type} [Inhabited α] {x : α}
    {c : List (Bucket α β)} {j i t : Nat} {k : α} {v : β}
    (h8 : ∀ b ∈ c, b.tophash.length = 8 ∧ b.keys.length = 8 ∧
      b.values.length = 8)
    (hi : i < 8)
    (hx : x ∈ chainKeys (chainWrite c j i t k v)) :
    x ∈ chainKeys c ∨ x = k := by
  unfold chainWrite at hx
  split at hx
  next b0 hb0 =>
    rcases mem_chainKeys.mp hx with ⟨b, hb, hbx⟩
    have hb0mem : b0 ∈ c := by
      rcases List.getElem?_eq_some_iff.mp hb0 with ⟨hlt, hEq⟩
      rw [← hEq]
      exact List.getElem_mem hlt
    rcases List.mem_or_eq_of_mem_set hb with hb | hb
    · exact Or.inl (mem_chainKeys.mpr ⟨b, hb, hbx⟩)
    · subst hb
      rcases mem_slotKeys_writeSlot (h8 b0 hb0mem).2.1 hi
          hbx with hsk | hsk
      · exact Or.inl (mem_chainKeys.mpr ⟨b0, hb0mem, hsk⟩)
      · exact Or.inr hsk
  next => exact Or.inl hx

theorem mem_chainKeys_append {α β : Type} [Inhabited α] [Inhabited β] {x : α}
    {c : List (Bucket α β)} {t : Nat} {k : α} {v : β}
    (hx : x ∈ chainKeys (c ++ [writeSlot emptyBucket 0 t k v])) :
    x ∈ chainKeys c ∨ x = k := by
  rcases mem_chainKeys.mp hx with ⟨b, hb, hbx⟩
  rcases List.mem_append.mp hb with hb | hb
  · exact Or.inl (mem_chainKeys.mpr ⟨b, hb, hbx⟩)
  · have hbnb : b = writeSlot emptyBucket 0 t k v := by simpa using hb
    subst hbnb
    exact Or.inr (mem_slotKeys_newBucket hbx)

theorem mem_mapKeys_put {α β : Type} [Inhabited α] [Inhabited β] {x : α}
    (a : Bool) (m : Hashmap α β) (k : α) (v : β) (hwf : WF m)
    (hx : x ∈ mapKeys (hashmap_put a m k v).2) : x ∈ mapKeys m ∨ x = k := by
  have hidx : keyIdx m k < m.buckets.length := by
    rw [hwf.1]
    exact bucket_index_lt _ hwf.2.1
  have hchain := hwf.2.2 _ (getD_mem hidx ([] : List (Bucket α β)))
  have hchmem : keyChain m k ∈ m.buckets := getD_mem hidx []
  cases hm : keyMatch m k with
  | some ji =>
      rw [put_match_eq a v hm] at hx
      rcases mem_mapKeys.mp hx with ⟨c, hc, hcx⟩
      dsimp only at hc
      rcases List.mem_or_eq_of_mem_set hc with hc | hc
      · exact Or.inl (mem_mapKeys.mpr ⟨c, hc, hcx⟩)
      · subst hc
        exact Or.inl (mem_mapKeys.mpr
          ⟨keyChain m k, hchmem, mem_chainKeys_chainSetValue hcx⟩)
  | none =>
      cases he : chainFirstEmpty (keyChain m k) with
      | some ji =>
          have hbounds : ji.1 < (keyChain m k).length ∧ ji.2 < 8 := by
            have hfind := he
            unfold chainFirstEmpty at hfind
            have hmem := List.mem_of_find?_eq_some hfind
            obtain ⟨j, i⟩ := ji
            exact (mem_positions _ j i).mp hmem
          rw [put_insert_eq a v hm he] at hx
          rcases mem_mapKeys.mp hx with ⟨c, hc, hcx⟩
          dsimp only at hc
          rcases List.mem_or_eq_of_mem_set hc with hc | hc
          · exact Or.inl (mem_mapKeys.mpr ⟨c, hc, hcx⟩)
          · subst hc
            rcases mem_chainKeys_chainWrite hchain.2 hbounds.2 hcx with h | h
            · exact Or.inl (mem_mapKeys.mpr ⟨keyChain m k, hchmem, h⟩)
            · exact Or.inr h
      | none =>
          cases a with
          | false =>
              rw [put_alloc_fail_eq v hm he] at hx
              exact Or.inl hx
          | true =>
              rw [put_append_eq v hm he] at hx
              rcases mem_mapKeys.mp hx with ⟨c, hc, hcx⟩
              dsimp only at hc
              rcases List.mem_or_eq_of_mem_set hc with hc | hc
              · exact Or.inl (mem_mapKeys.mpr ⟨c, hc, hcx⟩)
              · subst hc
                rcases mem_chainKeys_append hcx with h | h
                · exact Or.inl (mem_mapKeys.mpr ⟨keyChain m k, hchmem, h⟩)
                · exact Or.inr h

theorem putList_fields {α β : Type} [Inhabited α] [Inhabited β] :
    ∀ (ops : List (α × β)) (m : Hashmap α β),
    (putList m ops).key_size = m.key_size ∧
    (putList m ops).hash = m.hash ∧
    (putList m ops).equals = m.equals ∧
    (putList m ops).bucket_count = m.bucket_count ∧
    (putList m ops).old_buckets = m.old_buckets ∧
    (putList m ops).old_bucket_count = m.old_bucket_count
  | [], m => ⟨rfl, rfl, rfl, rfl, rfl, rfl⟩
  | kv :: rest, m => by
      have h1 := put_fields true m kv.1 kv.2
      have h2 := putList_fields rest (hashmap_put true m kv.1 kv.2).2
      unfold putList
      refine ⟨?_, ?_, ?_, ?_, ?_, ?_⟩
      · rw [h2.1, h1.1]
      · rw [h2.2.1, h1.2.2.1]
      · rw [h2.2.2.1, h1.2.2.2.1]
      · rw [h2.2.2.2.1, h1.2.2.2.2.1]
      · rw [h2.2.2.2.2.1, h1.2.2.2.2.2.2.1]
      · rw [h2.2.2.2.2.2, h1.2.2.2.2.2.2.2.1]

/-- If no stored key of the map is related to `k` by the map's equality
function, the modelled `hashmap_get` reports "not found". -/
theorem get_none_of_not_mem {α β : Type} [Inhabited α] [Inhabited β]
    (m : Hashmap α β) (k : α)
    (hall : ∀ x ∈ mapKeys m, m.equals x k m.key_size = false) :
    hashmap_get m k = none := by
  rw [get_eq_keyMatch]
  suffices h : keyMatch m k = none by rw [h]
  unfold keyMatch chainFirstMatch
  rw [List.find?_eq_none]
  rintro ⟨j, i⟩ hp hmatch
  rw [mem_positions] at hp
  by_cases hidx : keyIdx m k < m.buckets.length
  · unfold matchAt at hmatch
    dsimp only at hmatch
    rw [Bool.and_eq_true, Bool.and_eq_true] at hmatch
    have hocc : (((keyChain m k).getD j ⟨[], [], []⟩).tophash.getD i EMPTY ==
        EMPTY) = false := by
      have h := hmatch.1.1
      rwa [Bool.not_eq_true'] at h
    have hbmem : (keyChain m k).getD j ⟨[], [], []⟩ ∈ keyChain m k :=
      getD_mem hp.1 _
    have hsk : ((keyChain m k).getD j ⟨[], [], []⟩).keys.getD i default ∈
        slotKeys ((keyChain m k).getD j ⟨[], [], []⟩) :=
      mem_slotKeys.mpr ⟨i, hp.2, hocc, rfl⟩
    have hmk : ((keyChain m k).getD j ⟨[], [], []⟩).keys.getD i default ∈
        mapKeys m :=
      mem_mapKeys.mpr ⟨keyChain m k, getD_mem hidx [], mem_chainKeys.mpr
        ⟨(keyChain m k).getD j ⟨[], [], []⟩, hbmem, hsk⟩⟩
    have hfalse := hall _ hmk
    rw [hmatch.2] at hfalse
    cases hfalse
  · have hempty : keyChain m k = [] := by
      unfold keyChain
      exact List.getD_eq_default _ _ (Nat.le_of_not_lt hidx)
    rw [hempty] at hp
    simp at hp

theorem mapKeys_create {α β : Type} [Inhabited α] [Inhabited β]
    {ks vs : Nat} {hf : Option (α → Nat → Nat)}
    {ef : Option (α → α → Nat → Bool)} {mo bo : Bool} {s : Nat}
    {m0 : Hashmap α β}
    (h : hashmap_create α β ks vs hf ef mo bo s = some m0) :
    mapKeys m0 = [] := by
  obtain ⟨hh, ee, _, _, _, _, _, _, rfl⟩ := create_eq_some h
  rw [List.eq_nil_iff_forall_not_mem]
  intro x hx
  rcases mem_mapKeys.mp hx with ⟨c, hc, hcx⟩
  have hc' : c = [emptyBucket] := by
    simpa using List.eq_of_mem_replicate hc
  subst hc'
  rcases mem_chainKeys.mp hcx with ⟨b, hb, hbx⟩
  have hb' : b = emptyBucket := by simpa using hb
  subst hb'
  rw [slotKeys_emptyBucket] at hbx
  cases hbx

theorem mem_mapKeys_putList {α β : Type} [Inhabited α] [Inhabited β] :
    ∀ (ops : List (α × β)) (m : Hashmap α β), WF m →
    ∀ x ∈ mapKeys (putList m ops),
      x ∈ mapKeys m ∨ ∃ kv ∈ ops, x = kv.1
  | [], m, _, x, hx => Or.inl hx
  | kv :: rest, m, hwf, x, hx => by
      unfold putList at hx
      rcases mem_mapKeys_putList rest (hashmap_put true m kv.1 kv.2).2
          (WF_put true m kv.1 kv.2 hwf) x hx with h | ⟨kv', hkv', h⟩
      · rcases mem_mapKeys_put true m kv.1 kv.2 hwf h with h | h
        · exact Or.inl h
        · exact Or.inr ⟨kv, List.mem_cons_self kv rest, h⟩
      · exact Or.inr ⟨kv', List.mem_cons_of_mem kv hkv', h⟩

/-! The scan order: `positions` enumerates slots in increasing
`8 * chain-position + slot-index` order, so `find?` returns the first
satisfying slot of the C scan. -/

theorem find?_decomp {γ : Type} {f : γ → Bool} {a : γ} :
    ∀ {l : List γ}, l.find? f = some a →
      ∃ l1 l2, l = l1 ++ a :: l2 ∧ ∀ x ∈ l1, f x = false
  | [], h => by cases h
  | b :: t, h => by
      by_cases hfb : f b = true
      · rw [List.find?_cons_of_pos _ hfb] at h
        obtain rfl := Option.some.inj h
        exact ⟨[], t, rfl, by simp⟩
      · have hfb' : f b = false := by
          revert hfb
          cases f b <;> simp
        rw [List.find?_cons_of_neg _ (by simp [hfb'])] at h
        obtain ⟨l1, l2, hsplit, hl1⟩ := find?_decomp h
        refine ⟨b :: l1, l2, by rw [hsplit]; rfl, ?_⟩
        intro x hx
        rcases List.mem_cons.mp hx with hx | hx
        · rw [hx]
          exact hfb'
        · exact hl1 x hx

theorem find?_range_earlier {q : Nat → Bool} {M n : Nat}
    (h : (List.range M).find? q = some n) :
    ∀ n' < n, q n' = false := by
  obtain ⟨l1, l2, hsplit, hl1⟩ := find?_decomp h
  have hlen : l1.length < M := by
    have := congrArg List.length hsplit
    simp only [List.length_range, List.length_append, List.length_cons]
      at this
    omega
  have hn : n = l1.length := by
    have h1 : (List.range M)[l1.length]? = some l1.length :=
      List.getElem?_range hlen
    rw [hsplit, List.getElem?_append_right (Nat.le_refl _)] at h1
    simp at h1
    exact h1
  intro n' hn'
  have hlt : n' < M := by omega
  have h2 : (List.range M)[n']? = some n' := List.getElem?_range hlt
  rw [hsplit, List.getElem?_append_left (by omega)] at h2
  have hmem : n' ∈ l1 := by
    rcases List.getElem?_eq_some_iff.mp h2 with ⟨hh, hEq⟩
    rw [← hEq]
    exact List.getElem_mem hh
  exact hl1 n' hmem

theorem positions_aux :
    ∀ L : Nat, (List.range L).flatMap
        (fun j => (List.range 8).map fun i => ((j, i) : Nat × Nat)) =
      (List.range (8 * L)).map fun n => (n / 8, n % 8)
  | 0 => rfl
  | L + 1 => by
      rw [List.range_succ, List.flatMap_append, positions_aux L]
      have h8 : 8 * (L + 1) = 8 * L + 8 := by ring
      rw [h8, List.range_add, List.map_append, List.map_map]
      congr 1
      simp only [List.flatMap_cons, List.flatMap_nil, List.append_nil]
      apply List.map_congr_left
      intro i hi
      rw [List.mem_range] at hi
      simp only [Function.comp_apply, Prod.mk.injEq]
      constructor
      · omega
      · omega

theorem positions_eq {α β : Type} (c : List (Bucket α β)) :
    positions c = (List.range (8 * c.length)).map fun n => (n / 8, n % 8) :=
  positions_aux c.length

/-- The slot `chainFirstEmpty` returns really is the first free slot of the
C scan: every strictly earlier slot (earlier bucket of the chain, or same
bucket and smaller slot index) is occupied. -/
theorem chainFirstEmpty_earlier {α β : Type} {c : List (Bucket α β)}
    {j i : Nat} (h : chainFirstEmpty c = some (j, i)) :
    ∀ j' i', j' < c.length → i' < 8 → (j' < j ∨ (j' = j ∧ i' < i)) →
      emptyAt c (j', i') = false := by
  intro j' i' hj' hi' hord
  unfold chainFirstEmpty at h
  rw [positions_eq, List.find?_map] at h
  rcases Option.map_eq_some'.mp h with ⟨n, hn, hfn⟩
  have hj : n / 8 = j := congrArg Prod.fst hfn
  have hi : n % 8 = i := congrArg Prod.snd hfn
  have hmod : n % 8 < 8 := Nat.mod_lt _ (by omega)
  have hlt : 8 * j' + i' < n := by
    have hdm := Nat.div_add_mod n 8
    omega
  have hq := find?_range_earlier hn (8 * j' + i') hlt
  have hdiv : (8 * j' + i') / 8 = j' := by omega
  have hmod' : (8 * j' + i') % 8 = i' := by omega
  have : emptyAt c ((8 * j' + i') / 8, (8 * j' + i') % 8) = false := hq
  rwa [hdiv, hmod'] at this

/-- Overwriting an existing key: the subsequent lookup of that key returns
the new value (no reflexivity assumption on the equality function needed,
since the lookup finds the same first matching slot). -/
theorem get_after_overwrite {α β : Type} [Inhabited α] [Inhabited β]
    (a : Bool) (m : Hashmap α β) (k : α) (v : β) (hwf : WF m)
    {ji : Nat × Nat} (hm : keyMatch m k = some ji) :
    hashmap_get (hashmap_put a m k v).2 k = some v := by
  have hidx : keyIdx m k < m.buckets.length := by
    rw [hwf.1]
    exact bucket_index_lt _ hwf.2.1
  have hidx' : bucket_index (m.hash k m.key_size % 2 ^ 64) m.bucket_count <
      m.buckets.length := hidx
  obtain ⟨j, i⟩ := ji
  have hfind := hm
  unfold keyMatch chainFirstMatch at hfind
  have hmem := List.mem_of_find?_eq_some hfind
  have hbounds := (mem_positions _ j i).mp hmem
  have hb8 := (hwf.2.2 _ (getD_mem hidx [])).2 _
    (getD_mem hbounds.1 ⟨[], [], []⟩)
  rw [put_match_eq a v hm]
  rw [get_eq_keyMatch]
  have hkm : keyMatch { m with buckets := (m.buckets.set (keyIdx m k)
      (chainSetValue (keyChain m k) j i v)) } k = some (j, i) := by
    unfold keyMatch keyChain keyIdx keyTop keyHash
    dsimp only
    rw [getD_set_self hidx']
    rw [chainFirstMatch_chainSetValue]
    exact hm
  rw [hkm]
  have hcc : keyChain { m with buckets := (m.buckets.set (keyIdx m k)
      (chainSetValue (keyChain m k) j i v)) } k =
      chainSetValue (keyChain m k) j i v := by
    unfold keyChain keyIdx keyHash
    dsimp only
    rw [getD_set_self hidx']
  dsimp only
  rw [hcc]
  rw [chainSetValue_value hbounds.1 (by rw [hb8.2.2]; exact hbounds.2)]

/-! The hash seed is dead state: no operation reads it. -/

theorem put_seed {α β : Type} [Inhabited α] [Inhabited β] (a : Bool)
    (m : Hashmap α β) (s : Nat) (k : α) (v : β) :
    hashmap_put a { m with hash_seed := s } k v =
      ((hashmap_put a m k v).1,
        { (hashmap_put a m k v).2 with hash_seed := s }) := by
  cases hm : keyMatch m k with
  | some ji =>
      have hm' : keyMatch { m with hash_seed := s } k = some ji := hm
      rw [put_match_eq a v hm', put_match_eq a v hm]
      rfl
  | none =>
      have hm' : keyMatch { m with hash_seed := s } k = none := hm
      cases he : chainFirstEmpty (keyChain m k) with
      | some ji =>
          have he' : chainFirstEmpty
              (keyChain { m with hash_seed := s } k) = some ji := he
          rw [put_insert_eq a v hm' he', put_insert_eq a v hm he]
          rfl
      | none =>
          have he' : chainFirstEmpty
              (keyChain { m with hash_seed := s } k) = none := he
          cases a with
          | true =>
              rw [put_append_eq v hm' he', put_append_eq v hm he]
              rfl
          | false =>
              rw [put_alloc_fail_eq v hm' he', put_alloc_fail_eq v hm he]

theorem get_seed {α β : Type} [Inhabited α] [Inhabited β]
    (m : Hashmap α β) (s : Nat) (k : α) :
    hashmap_get { m with hash_seed := s } k = hashmap_get m k := rfl

theorem putList_seed {α β : Type} [Inhabited α] [Inhabited β] :
    ∀ (ops : List (α × β)) (m : Hashmap α β) (s : Nat),
    putList { m with hash_seed := s } ops =
      { putList m ops with hash_seed := s }
  | [], m, s => rfl
  | kv :: rest, m, s => by
      unfold putList
      rw [put_seed]
      exact putList_seed rest (hashmap_put true m kv.1 kv.2).2 s

/-! Claim theorems. -/

/-- C1: on every well-formed map whose equality function relates the key to
itself, a successful `put(map, k, v)` followed by `get(map, k)` reports
success and returns `v`; and `get` on a key never inserted (no key of the
put sequence applied to a freshly created map is `equals`-related to it)
reports "not found". The modelled `hashmap_get` is a pure function
returning only the looked-up value, so it performs no mutation of the map
by construction. -/
theorem spec_C1_roundtrip_and_miss :
    (∀ (α β : Type) [Inhabited α] [Inhabited β] (a : Bool) (m : Hashmap α β)
        (k : α) (v : β), WF m → m.equals k k m.key_size = true →
        (hashmap_put a m k v).1 = true →
        hashmap_get (hashmap_put a m k v).2 k = some v) ∧
    (∀ (α β : Type) [Inhabited α] [Inhabited β] (ks vs : Nat)
        (hf : Option (α → Nat → Nat)) (ef : Option (α → α → Nat → Bool))
        (mo bo : Bool) (s : Nat) (m0 : Hashmap α β) (ops : List (α × β))
        (k : α),
        hashmap_create α β ks vs hf ef mo bo s = some m0 →
        (∀ kv ∈ ops, m0.equals kv.1 k m0.key_size = false) →
        hashmap_get (putList m0 ops) k = none) := by
  constructor
  · intro α β _ _ a m k v hwf hk hs
    exact get_after_put a m k v hwf hk hs
  · intro α β _ _ ks vs hf ef mo bo s m0 ops k hcr hne
    apply get_none_of_not_mem
    intro x hx
    have hflds := putList_fields ops m0
    rcases mem_mapKeys_putList ops m0 (WF_create hcr) x hx with h | ⟨kv, hkv, rfl⟩
    · rw [mapKeys_create hcr] at h
      cases h
    · rw [hflds.2.2.1, hflds.1]
      exact hne kv hkv

theorem spec_C1_witness :
    hashmap_get (hashmap_put true freshNat 3 7).2 3 = some 7 ∧
    hashmap_get (putList freshNat [(1, 2), (3, 4)]) 5 = none :=
  ⟨spec_C1_roundtrip_and_miss.1 Nat Nat true freshNat 3 7 (by decide)
      (by decide) (by decide),
    spec_C1_roundtrip_and_miss.2 Nat Nat 4 4 (some hashNat) (some eqNat)
      true true 77 freshNat [(1, 2), (3, 4)] 5 (by rfl) (by decide)⟩

/-- C2: the claim states that a successful put crossing the load-factor
threshold on a stable map starts growth (doubled bucket array installed,
old-array fields populated, evacuation counter reset). The code checks the
load factor but its growth branch is an empty TODO: `hashmap_put` never
changes `bucket_count` or any old-array field. The second conjunct
evaluates the code at a concrete failing input: a stable one-bucket map
holding 52 entries, whose 53rd successful put satisfies the code's own
load-factor comparison (`53 * 2 > 1 * 8 * 13`) yet leaves the map stable
with an unchanged bucket count. -/
theorem spec_C2_put_never_grows :
    (∀ (α β : Type) [Inhabited α] [Inhabited β] (a : Bool) (m : Hashmap α β)
        (k : α) (v : β),
        (hashmap_put a m k v).2.bucket_count = m.bucket_count ∧
        (hashmap_put a m k v).2.old_buckets = m.old_buckets ∧
        (hashmap_put a m k v).2.old_bucket_count = m.old_bucket_count ∧
        (hashmap_put a m k v).2.evacuated = m.evacuated) ∧
    ((hashmap_put true mLoaded 100 5).1 = true ∧
      (hashmap_put true mLoaded 100 5).2.count * LOAD_FACTOR_DENOMINATOR >
        (hashmap_put true mLoaded 100 5).2.bucket_count * BUCKET_SIZE *
          LOAD_FACTOR_NUMERATOR ∧
      (hashmap_put true mLoaded 100 5).2.old_buckets = none ∧
      (hashmap_put true mLoaded 100 5).2.bucket_count =
        mLoaded.bucket_count) := by
  constructor
  · intro α β _ _ a m k v
    have h := put_fields a m k v
    exact ⟨h.2.2.2.2.1, h.2.2.2.2.2.2.1, h.2.2.2.2.2.2.2.1, h.2.2.2.2.2.2.2.2⟩
  · refine ⟨by decide, by decide, by decide, by decide⟩

/-- C3: a put of `v2` on a key already present (witnessed by a successful
get of `v1`) reports success, leaves the live entry count unchanged,
rewrites exactly the matched slot's value in place, and a subsequent get
returns `v2`. -/
theorem spec_C3_overwrite :
    ∀ (α β : Type) [Inhabited α] [Inhabited β] (a : Bool) (m : Hashmap α β)
      (k : α) (v1 v2 : β), WF m → hashmap_get m k = some v1 →
      (hashmap_put a m k v2).1 = true ∧
      (hashmap_put a m k v2).2.count = m.count ∧
      (∃ ji, keyMatch m k = some ji ∧
        (hashmap_put a m k v2).2 =
          { m with buckets := (m.buckets.set (keyIdx m k)
              (chainSetValue (keyChain m k) ji.1 ji.2 v2)) }) ∧
      hashmap_get (hashmap_put a m k v2).2 k = some v2 := by
  intro α β _ _ a m k v1 v2 hwf hget
  rw [get_eq_keyMatch] at hget
  cases hm : keyMatch m k with
  | none =>
      rw [hm] at hget
      cases hget
  | some ji =>
      refine ⟨?_, ?_, ⟨ji, rfl, ?_⟩, ?_⟩
      · rw [put_match_eq a v2 hm]
      · rw [put_match_eq a v2 hm]
      · rw [put_match_eq a v2 hm]
      · exact get_after_overwrite a m k v2 hwf hm

theorem spec_C3_witness :
    (hashmap_put true exampleMap1 3 9).1 = true ∧
    (hashmap_put true exampleMap1 3 9).2.count = exampleMap1.count ∧
    hashmap_get (hashmap_put true exampleMap1 3 9).2 3 = some 9 := by
  have h := spec_C3_overwrite Nat Nat true exampleMap1 3 7 9 (by decide)
    (by decide)
  exact ⟨h.1, h.2.1, h.2.2.2⟩

/-- C4: a put of a key not present writes into the first empty slot of the
chain in scan order (every strictly earlier slot is occupied); when no
empty slot exists in the whole chain, exactly one fresh overflow bucket is
appended at the chain's tail with the entry in its slot 0. The second
conjunct is the chain-scan scenario: nine insertions (BUCKET_SIZE + 1)
whose keys all hash to bucket 0 leave exactly one chain of two buckets
(one overflow allocation) and all nine keys retrievable. -/
theorem spec_C4_insert_placement :
    (∀ (α β : Type) [Inhabited α] [Inhabited β] (m : Hashmap α β) (k : α)
        (v : β), keyMatch m k = none →
        ((∃ j i, chainFirstEmpty (keyChain m k) = some (j, i) ∧
            emptyAt (keyChain m k) (j, i) = true ∧
            (∀ p ∈ positions (keyChain m k),
              (p.1 < j ∨ (p.1 = j ∧ p.2 < i)) →
                emptyAt (keyChain m k) p = false) ∧
            (hashmap_put true m k v).2.buckets =
              m.buckets.set (keyIdx m k)
                (chainWrite (keyChain m k) j i (keyTop m k) k v)) ∨
          (chainFirstEmpty (keyChain m k) = none ∧
            (hashmap_put true m k v).2.buckets =
              m.buckets.set (keyIdx m k)
                (keyChain m k ++ [writeSlot emptyBucket 0 (keyTop m k) k v])))) ∧
    (scenarioMap.buckets.map List.length = [2, 1, 1, 1, 1, 1, 1, 1] ∧
      scenarioMap.count = 9 ∧
      ∀ kk < 9, hashmap_get scenarioMap kk = some (2 * kk)) := by
  constructor
  · intro α β _ _ m k v hm
    cases he : chainFirstEmpty (keyChain m k) with
    | some ji =>
        obtain ⟨j, i⟩ := ji
        left
        have hfind := he
        unfold chainFirstEmpty at hfind
        have hbounds := (mem_positions _ j i).mp
          (List.mem_of_find?_eq_some hfind)
        refine ⟨j, i, rfl, List.find?_some hfind, ?_, ?_⟩
        · intro p hp hord
          obtain ⟨p1, p2⟩ := p
          have hpb := (mem_positions _ p1 p2).mp hp
          exact chainFirstEmpty_earlier he p1 p2 hpb.1 hpb.2 hord
        · rw [put_insert_eq true v hm he]
    | none =>
        right
        refine ⟨rfl, ?_⟩
        rw [put_append_eq v hm he]
  · refine ⟨by decide, by decide, by decide⟩

theorem spec_C4_witness :
    (∃ j i, chainFirstEmpty (keyChain freshNat 3) = some (j, i) ∧
      emptyAt (keyChain freshNat 3) (j, i) = true ∧
      (∀ p ∈ positions (keyChain freshNat 3),
        (p.1 < j ∨ (p.1 = j ∧ p.2 < i)) →
          emptyAt (keyChain freshNat 3) p = false) ∧
      (hashmap_put true freshNat 3 7).2.buckets =
        freshNat.buckets.set (keyIdx freshNat 3)
          (chainWrite (keyChain freshNat 3) j i (keyTop freshNat 3) 3 7)) ∨
    (chainFirstEmpty (keyChain freshNat 3) = none ∧
      (hashmap_put true freshNat 3 7).2.buckets =
        freshNat.buckets.set (keyIdx freshNat 3)
          (keyChain freshNat 3 ++
            [writeSlot emptyBucket 0 (keyTop freshNat 3) 3 7])) :=
  spec_C4_insert_placement.1 Nat Nat freshNat 3 7 (by decide)

/-- C5: `hashmap_create` returns an absent map exactly when the key size is
zero, the value size is zero, the hash function is absent, the equality
function is absent, or one of the two allocations fails; a successful
creation yields a stable map (no old array) with zero entries and
`INITIAL_BUCKET_COUNT` buckets. In particular a present hash function
never causes rejection (it makes that disjunct false) and an absent one
never passes validation. -/
theorem spec_C5_create_validation :
    ∀ (α β : Type) [Inhabited α] [Inhabited β] (ks vs : Nat)
      (hf : Option (α → Nat → Nat)) (ef : Option (α → α → Nat → Bool))
      (mo bo : Bool) (s : Nat),
      (hashmap_create α β ks vs hf ef mo bo s = none ↔
        ks = 0 ∨ vs = 0 ∨ hf = none ∨ ef = none ∨ mo = false ∨ bo = false) ∧
      (∀ m0 : Hashmap α β, hashmap_create α β ks vs hf ef mo bo s = some m0 →
        m0.old_buckets = none ∧ m0.count = 0 ∧
        m0.bucket_count = INITIAL_BUCKET_COUNT ∧
        m0.buckets.length = INITIAL_BUCKET_COUNT) := by
  intro α β _ _ ks vs hf ef mo bo s
  constructor
  · constructor
    · intro hnone
      by_contra hno
      push_neg at hno
      obtain ⟨hks, hvs, hhf, hef, hmo, hbo⟩ := hno
      rcases Option.ne_none_iff_exists'.mp hhf with ⟨hh, rfl⟩
      rcases Option.ne_none_iff_exists'.mp hef with ⟨ee, rfl⟩
      have hmo' : mo = true := by
        revert hmo
        cases mo <;> simp
      have hbo' : bo = true := by
        revert hbo
        cases bo <;> simp
      subst hmo'
      subst hbo'
      unfold hashmap_create at hnone
      rw [if_neg (by simp [hks, hvs])] at hnone
      dsimp only at hnone
      simp at hnone
    · intro h
      rcases h with rfl | rfl | rfl | rfl | rfl | rfl
      · unfold hashmap_create
        simp
      · unfold hashmap_create
        simp
      · unfold hashmap_create
        simp
      · unfold hashmap_create
        simp
      · unfold hashmap_create
        split
        · rfl
        · split
          · simp
          · rfl
      · unfold hashmap_create
        split
        · rfl
        · split
          next hh ee =>
            cases mo <;> simp
          · rfl
  · intro m0 hsome
    obtain ⟨hh, ee, _, _, _, _, _, _, rfl⟩ := create_eq_some hsome
    exact ⟨rfl, rfl, rfl, by simp⟩

theorem spec_C5_witness :
    hashmap_create Nat Nat 0 4 (some hashNat) (some eqNat) true true 0 =
      none ∧
    freshNat.old_buckets = none ∧ freshNat.count = 0 ∧
    freshNat.bucket_count = INITIAL_BUCKET_COUNT ∧
    freshNat.buckets.length = INITIAL_BUCKET_COUNT :=
  ⟨(spec_C5_create_validation Nat Nat 0 4 (some hashNat) (some eqNat)
      true true 0).1.mpr (Or.inl rfl),
    (spec_C5_create_validation Nat Nat 4 4 (some hashNat) (some eqNat)
      true true 77).2 freshNat (by rfl)⟩

/-- C6: when the overflow-bucket allocation fails during a put (the key is
absent and the whole chain is full, so the allocation path is taken), the
operation reports failure and the map is returned exactly as it was: no
tag, key or value bytes written, the count unchanged, no overflow bucket
linked. -/
theorem spec_C6_alloc_failure_atomic :
    ∀ (α β : Type) [Inhabited α] [Inhabited β] (m : Hashmap α β) (k : α)
      (v : β),
      ((hashmap_put false m k v).1 = false →
        (hashmap_put false m k v).2 = m) ∧
      (keyMatch m k = none → chainFirstEmpty (keyChain m k) = none →
        hashmap_put false m k v = (false, m)) := by
  intro α β _ _ m k v
  constructor
  · intro hf
    cases hm : keyMatch m k with
    | some ji =>
        rw [put_match_eq false v hm] at hf
        simp at hf
    | none =>
        cases he : chainFirstEmpty (keyChain m k) with
        | some ji =>
            rw [put_insert_eq false v hm he] at hf
            simp at hf
        | none =>
            rw [put_alloc_fail_eq v hm he]
  · intro hm he
    exact put_alloc_fail_eq v hm he

theorem spec_C6_witness :
    (hashmap_put false mFull 100 5).2 = mFull ∧
    hashmap_put false mFull 100 5 = (false, mFull) :=
  ⟨(spec_C6_alloc_failure_atomic Nat Nat mFull 100 5).1 (by decide),
    (spec_C6_alloc_failure_atomic Nat Nat mFull 100 5).2 (by decide)
      (by decide)⟩

/-- C7: after any sequence of puts on a successfully created map, the
current bucket count is a power of two at least the initial minimum
(`hashmap_put` never changes it from `INITIAL_BUCKET_COUNT = 2 ^ 3`), and
whenever an old bucket array were present its count would be half the
current one — on every reachable state the old array is in fact absent,
since the code never starts growth, so the invariant's guarded clause
holds with its guard never realized. -/
theorem spec_C7_capacity_invariant :
    ∀ (α β : Type) [Inhabited α] [Inhabited β] (ks vs : Nat)
      (hf : Option (α → Nat → Nat)) (ef : Option (α → α → Nat → Bool))
      (mo bo : Bool) (s : Nat) (m0 : Hashmap α β) (ops : List (α × β)),
      hashmap_create α β ks vs hf ef mo bo s = some m0 →
      (∃ e, (putList m0 ops).bucket_count = 2 ^ e) ∧
      INITIAL_BUCKET_COUNT ≤ (putList m0 ops).bucket_count ∧
      ((putList m0 ops).old_buckets = none ∨
        (putList m0 ops).old_bucket_count * 2 =
          (putList m0 ops).bucket_count) := by
  intro α β _ _ ks vs hf ef mo bo s m0 ops hcr
  obtain ⟨hh, ee, _, _, _, _, _, _, rfl⟩ := create_eq_some hcr
  refine ⟨⟨3, ?_⟩, ?_, Or.inl ?_⟩
  · rw [(putList_fields ops _).2.2.2.1]
    rfl
  · rw [(putList_fields ops _).2.2.2.1]
  · rw [(putList_fields ops _).2.2.2.2.1]

theorem spec_C7_witness :
    (∃ e, (putList freshNat [(1, 2)]).bucket_count = 2 ^ e) ∧
    INITIAL_BUCKET_COUNT ≤ (putList freshNat [(1, 2)]).bucket_count ∧
    ((putList freshNat [(1, 2)]).old_buckets = none ∨
      (putList freshNat [(1, 2)]).old_bucket_count * 2 =
        (putList freshNat [(1, 2)]).bucket_count) :=
  spec_C7_capacity_invariant Nat Nat 4 4 (some hashNat) (some eqNat)
    true true 77 freshNat [(1, 2)] (by rfl)

/-- C8: two maps identical except for the hash seed behave identically:
put returns the same flag and the same state (up to the seed field carried
through unchanged), get returns the same result, and whole put sequences
commute with changing the seed. The seed assigned at construction is never
fed into the hash computation. -/
theorem spec_C8_seed_independence :
    ∀ (α β : Type) [Inhabited α] [Inhabited β] (a : Bool) (m : Hashmap α β)
      (s : Nat) (k : α) (v : β) (ops : List (α × β)),
      (hashmap_put a { m with hash_seed := s } k v).1 =
        (hashmap_put a m k v).1 ∧
      (hashmap_put a { m with hash_seed := s } k v).2 =
        { (hashmap_put a m k v).2 with hash_seed := s } ∧
      hashmap_get { m with hash_seed := s } k = hashmap_get m k ∧
      putList { m with hash_seed := s } ops =
        { putList m ops with hash_seed := s } := by
  intro α β _ _ a m s k v ops
  refine ⟨?_, ?_, get_seed m s k, putList_seed ops m s⟩
  · rw [put_seed]
  · rw [put_seed]

/-- C9: a bucket's byte footprint is C tag bytes plus C keys plus C values
plus one overflow-pointer field, and for every slot index the byte ranges
of the slot's tag byte, key, value and the overflow pointer are pairwise
disjoint and contained in the footprint. -/
theorem spec_C9_bucket_layout :
    ∀ ks vs i : Nat, 0 < ks → 0 < vs → i < BUCKET_SIZE →
      (calc_bucket_size ks vs =
          BUCKET_SIZE + BUCKET_SIZE * ks + BUCKET_SIZE * vs + PTR_SIZE ∧
        tophash_offset i + 1 ≤ calc_bucket_size ks vs ∧
        key_offset ks i + ks ≤ calc_bucket_size ks vs ∧
        value_offset ks vs i + vs ≤ calc_bucket_size ks vs ∧
        overflow_offset ks vs + PTR_SIZE ≤ calc_bucket_size ks vs) ∧
      (rangesDisjoint (tophash_offset i) 1 (key_offset ks i) ks ∧
        rangesDisjoint (tophash_offset i) 1 (value_offset ks vs i) vs ∧
        rangesDisjoint (tophash_offset i) 1 (overflow_offset ks vs)
          PTR_SIZE ∧
        rangesDisjoint (key_offset ks i) ks (value_offset ks vs i) vs ∧
        rangesDisjoint (key_offset ks i) ks (overflow_offset ks vs)
          PTR_SIZE ∧
        rangesDisjoint (value_offset ks vs i) vs (overflow_offset ks vs)
          PTR_SIZE) := by
  intro ks vs i hks hvs hi
  simp only [calc_bucket_size, tophash_offset, key_offset, value_offset,
    overflow_offset, rangesDisjoint, BUCKET_SIZE, PTR_SIZE] at hi ⊢
  have h1 : i * ks + ks ≤ 8 * ks := by
    have h := Nat.mul_le_mul_right ks (show i + 1 ≤ 8 by omega)
    calc i * ks + ks = (i + 1) * ks := by ring
      _ ≤ 8 * ks := h
  have h2 : i * vs + vs ≤ 8 * vs := by
    have h := Nat.mul_le_mul_right vs (show i + 1 ≤ 8 by omega)
    calc i * vs + vs = (i + 1) * vs := by ring
      _ ≤ 8 * vs := h
  refine ⟨⟨by ring, by omega, by omega, by omega, by omega⟩,
    by omega, by omega, by omega, by omega, by omega, by omega⟩

theorem spec_C9_witness :
    (calc_bucket_size 4 4 =
        BUCKET_SIZE + BUCKET_SIZE * 4 + BUCKET_SIZE * 4 + PTR_SIZE ∧
      tophash_offset 3 + 1 ≤ calc_bucket_size 4 4 ∧
      key_offset 4 3 + 4 ≤ calc_bucket_size 4 4 ∧
      value_offset 4 4 3 + 4 ≤ calc_bucket_size 4 4 ∧
      overflow_offset 4 4 + PTR_SIZE ≤ calc_bucket_size 4 4) ∧
    (rangesDisjoint (tophash_offset 3) 1 (key_offset 4 3) 4 ∧
      rangesDisjoint (tophash_offset 3) 1 (value_offset 4 4 3) 4 ∧
      rangesDisjoint (tophash_offset 3) 1 (overflow_offset 4 4) PTR_SIZE ∧
      rangesDisjoint (key_offset 4 3) 4 (value_offset 4 4 3) 4 ∧
      rangesDisjoint (key_offset 4 3) 4 (overflow_offset 4 4) PTR_SIZE ∧
      rangesDisjoint (value_offset 4 4 3) 4 (overflow_offset 4 4)
        PTR_SIZE) :=
  spec_C9_bucket_layout 4 4 3 (by decide) (by decide) (by decide)

/-- C10: `hashmap_put` with an absent map handle, key pointer or value
pointer returns false and leaves the map (when present) untouched — the
NULL guard returns before any field of the map is read or written. -/
theorem spec_C10_null_args :
    ∀ (α β : Type) [Inhabited α] [Inhabited β] (a : Bool)
      (map : Option (Hashmap α β)) (key : Option α) (value : Option β),
      map = none ∨ key = none ∨ value = none →
      hashmap_put_raw a map key value = (false, map) := by
  intro α β _ _ a map key value h
  cases map with
  | none => cases key <;> cases value <;> rfl
  | some m =>
      cases key with
      | none => cases value <;> rfl
      | some k =>
          cases value with
          | none => rfl
          | some v => rcases h with h | h | h <;> simp at h

theorem spec_C10_witness :
    hashmap_put_raw true (some freshNat) (none : Option Nat)
      (some (5 : Nat)) = (false, some freshNat) :=
  spec_C10_null_args Nat Nat true (some freshNat) none (some 5)
    (Or.inr (Or.inl rfl))
